import Mathlib

/-!
Verification of the symbol extractor / breaking-change detector / impact
analyzer core of the manque-ai repository (package `pkg/ast`).

The Go code is shallowly embedded: Go maps become association lists
(`List (String × _)`); Go map iteration, whose order is unspecified, is
determinized as iteration over the association list in insertion order;
Go slices become `List`; the mutable `SymbolTable` of the impact analyzer
is threaded explicitly through every operation.  String renderings follow
the Go `fmt` templates, with the single-quote characters that the Go code
puts around symbol names elided.  `strings.EqualFold` is determinized as
equality of `String.toLower` images (exact for ASCII identifiers), and the
word-boundary regular expression match of `findReferences` is embedded
directly over character lists.
-/

namespace Manque

/-- Embeds `SymbolKind` (parser.go): kind of an extracted symbol. -/
inductive SymbolKind where
  | functionK | methodK | classK | interfaceK | structK
  | variableK | constantK | typeK | importK
deriving DecidableEq

/-- Embeds the `SymbolKind` string constants of parser.go. -/
def kindStr : SymbolKind → String
  | .functionK => "function"
  | .methodK => "method"
  | .classK => "class"
  | .interfaceK => "interface"
  | .structK => "struct"
  | .variableK => "variable"
  | .constantK => "constant"
  | .typeK => "type"
  | .importK => "import"

/-- Embeds `Symbol` (parser.go): a named, typed declaration found in source text. -/
structure Symbol where
  name : String
  kind : SymbolKind
  startLine : Nat
  endLine : Nat
  signature : String
  exported : Bool
  parameters : List String
  returnType : String
  parent : String
  filePath : String
deriving DecidableEq

/-- Embeds `BreakingChangeType` (breaking.go, part_006). -/
inductive BreakingChangeType where
  | removal | signatureChange | typeChange | visibilityChange
  | parameterChange | returnTypeChange | requiredParameter | behaviorChange
deriving DecidableEq

/-- Embeds `BreakingChange` (part_006).  The Go field `Type` is `ctype` here
(`type` is a Lean keyword); severities are the literal strings "warning",
"error", "critical" exactly as in the Go code. -/
structure BreakingChange where
  ctype : BreakingChangeType
  symbol : Symbol
  oldValue : String
  newValue : String
  filePath : String
  line : Nat
  severity : String
  description : String
  suggestion : String
deriving DecidableEq

/-- Embeds `BreakingChangeReport` (part_006). -/
structure BreakingChangeReport where
  fileName : String
  totalChanges : Nat
  criticalCount : Nat
  errorCount : Nat
  warningCount : Nat
  changes : List BreakingChange
  summary : String
  hasBreaking : Bool
deriving DecidableEq

/-- Association-list read of a Go map (first entry with the key wins; the
analyzer only ever builds key-unique lists). -/
def lookupKV {α : Type} : List (String × α) → String → Option α
  | [], _ => none
  | p :: m, k => if p.fst = k then some p.snd else lookupKV m k

/-- Association-list write of a Go map entry: replace the value if the key is
present, otherwise append a new entry. -/
def setKV {α : Type} : List (String × α) → String → α → List (String × α)
  | [], k, v => [(k, v)]
  | p :: m, k, v => if p.fst = k then (k, v) :: m else p :: setKV m k v

/-- Go `append` on the slice stored under a map key (appending to the zero
value `nil` when the key is absent). -/
def appendKV {α : Type} : List (String × List α) → String → α → List (String × List α)
  | [], k, v => [(k, [v])]
  | p :: m, k, v =>
    if p.fst = k then (p.fst, p.snd ++ [v]) :: m else p :: appendKV m k v

/-- Go map read of a slice-valued key, where a missing key reads as `nil`. -/
def lookupList {α : Type} (m : List (String × List α)) (k : String) : List α :=
  (lookupKV m k).getD []

/-- Embeds the key `fmt.Sprintf("%s:%s:%s", sym.Name, sym.Kind, sym.Parent)`
used by `buildSymbolMap` (part_006) and `AnalyzeImpact` (parser.go). -/
def symbolKey (s : Symbol) : String :=
  s.name ++ ":" ++ kindStr s.kind ++ ":" ++ s.parent

/-- Embeds `buildSymbolMap` (part_006): key-indexed map of a symbol list,
later symbols with an equal key overwriting earlier ones. -/
def buildSymbolMap (symbols : List Symbol) : List (String × Symbol) :=
  symbols.foldl (fun m sym => setKV m (symbolKey sym) sym) []

/-- ASCII lowercase conversion of one character. -/
def asciiLowerChar (c : Char) : Char :=
  if 65 ≤ c.toNat ∧ c.toNat ≤ 90 then Char.ofNat (c.toNat + 32) else c

/-- Embeds `strings.ToLower`, determinized as ASCII lowering (exact for the
ASCII extensions and identifiers this development evaluates it on). -/
def strToLower (s : String) : String :=
  String.mk (s.toList.map asciiLowerChar)

/-- Embeds `strings.EqualFold`, determinized as ASCII case folding. -/
def eqFold (a b : String) : Bool :=
  strToLower a == strToLower b

/-- Embeds the `required_parameter` change literal of
`detectParameterChanges` (part_006). -/
def requiredParamChange (oldSym newSym : Symbol) : BreakingChange :=
  { ctype := .requiredParameter, symbol := newSym,
    oldValue := toString oldSym.parameters.length ++ " parameters",
    newValue := toString newSym.parameters.length ++ " parameters",
    filePath := newSym.filePath, line := newSym.startLine,
    severity := "error",
    description := kindStr newSym.kind ++ " " ++ newSym.name ++ " added " ++
      toString (newSym.parameters.length - oldSym.parameters.length) ++
      " required parameter(s)",
    suggestion := "Consider making new parameters optional or provide a new overload" }

/-- Embeds the fewer-parameters `parameter_change` literal of
`detectParameterChanges` (part_006). -/
def fewerParamsChange (oldSym newSym : Symbol) : BreakingChange :=
  { ctype := .parameterChange, symbol := newSym,
    oldValue := toString oldSym.parameters.length ++ " parameters",
    newValue := toString newSym.parameters.length ++ " parameters",
    filePath := newSym.filePath, line := newSym.startLine,
    severity := "warning",
    description := kindStr newSym.kind ++ " " ++ newSym.name ++ " removed " ++
      toString (oldSym.parameters.length - newSym.parameters.length) ++ " parameter(s)",
    suggestion := "Verify callers do not rely on removed parameters" }

/-- Embeds the positional `parameter_change` literal of
`detectParameterChanges` (part_006) for position `i`. -/
def positionalParamChange (oldSym newSym : Symbol) (i : Nat) : BreakingChange :=
  { ctype := .parameterChange, symbol := newSym,
    oldValue := oldSym.parameters.getD i "",
    newValue := newSym.parameters.getD i "",
    filePath := newSym.filePath, line := newSym.startLine,
    severity := "error",
    description := kindStr newSym.kind ++ " " ++ newSym.name ++ " parameter " ++
      toString (i + 1) ++ " changed from " ++ oldSym.parameters.getD i "" ++ " to " ++
      newSym.parameters.getD i "",
    suggestion := "Consider if this change is backward compatible" }

/-- Embeds `detectParameterChanges` (part_006). -/
def detectParameterChanges (oldSym newSym : Symbol) : List BreakingChange :=
  let moreChanges : List BreakingChange :=
    if oldSym.parameters.length < newSym.parameters.length then
      [requiredParamChange oldSym newSym]
    else []
  let fewerChanges : List BreakingChange :=
    if newSym.parameters.length < oldSym.parameters.length then
      [fewerParamsChange oldSym newSym]
    else []
  let minLen := min oldSym.parameters.length newSym.parameters.length
  let positional : List BreakingChange :=
    (List.range minLen).filterMap (fun i =>
      if oldSym.parameters.getD i "" != newSym.parameters.getD i "" then
        some (positionalParamChange oldSym newSym i)
      else none)
  moreChanges ++ fewerChanges ++ positional

/-- Embeds the rename-heuristic `visibility_change` literal of the removed
loop of `DetectBreakingChanges` (part_006). -/
def renamedVisibilityChange (filename : String) (oldSym newSym : Symbol) :
    BreakingChange :=
  { ctype := .visibilityChange, symbol := newSym,
    oldValue := "exported", newValue := "unexported",
    filePath := filename, line := newSym.startLine,
    severity := "critical",
    description := kindStr oldSym.kind ++ " " ++ oldSym.name ++
      " changed from exported to unexported (renamed to " ++ newSym.name ++ ")",
    suggestion := "This breaks all external consumers. Consider keeping it exported or deprecating first" }

/-- Embeds the `removal` change literal of `DetectBreakingChanges`
(part_006). -/
def removalChange (filename : String) (oldSym : Symbol) : BreakingChange :=
  { ctype := .removal, symbol := oldSym,
    oldValue := oldSym.signature, newValue := "",
    filePath := filename, line := oldSym.startLine,
    severity := "critical",
    description := "Exported " ++ kindStr oldSym.kind ++ " " ++ oldSym.name ++ " was removed",
    suggestion := "If this removal is intentional, consider deprecating first or updating documentation" }

/-- Embeds one iteration of the removed-symbols loop of
`DetectBreakingChanges` (part_006): a key of the old map that is absent from
the new map emits, for an exported old symbol, either a rename-heuristic
visibility change (first same-kind, case-insensitively equal, differently
named new symbol) or a removal. -/
def processRemoved (filename : String) (newMap : List (String × Symbol))
    (newSymbols : List Symbol) (changes : List BreakingChange)
    (entry : String × Symbol) : List BreakingChange :=
  let oldSym := entry.snd
  if (lookupKV newMap entry.fst).isSome then changes
  else if oldSym.exported then
    match newSymbols.find? (fun newSym =>
        eqFold oldSym.name newSym.name && decide (oldSym.kind = newSym.kind) &&
        oldSym.name != newSym.name) with
    | some newSym => changes ++ [renamedVisibilityChange filename oldSym newSym]
    | none => changes ++ [removalChange filename oldSym]
  else changes

/-- Embeds the same-name `visibility_change` literal of the modified loop of
`DetectBreakingChanges` (part_006). -/
def downgradeVisibilityChange (filename : String) (newSym : Symbol) : BreakingChange :=
  { ctype := .visibilityChange, symbol := newSym,
    oldValue := "exported", newValue := "unexported",
    filePath := filename, line := newSym.startLine,
    severity := "critical",
    description := kindStr newSym.kind ++ " " ++ newSym.name ++ " changed from exported to unexported",
    suggestion := "This breaks all external consumers. Consider keeping it exported or deprecating first" }

/-- Embeds the `return_type_change` literal of `DetectBreakingChanges`
(part_006). -/
def returnTypeChangeOf (filename : String) (oldSym newSym : Symbol) : BreakingChange :=
  { ctype := .returnTypeChange, symbol := newSym,
    oldValue := oldSym.returnType, newValue := newSym.returnType,
    filePath := filename, line := newSym.startLine,
    severity := "error",
    description := kindStr newSym.kind ++ " " ++ newSym.name ++ " return type changed from " ++
      oldSym.returnType ++ " to " ++ newSym.returnType,
    suggestion := "Consider if this change is backward compatible or create a new function" }

/-- Embeds the catch-all `signature_change` literal of
`DetectBreakingChanges` (part_006). -/
def signatureChangeOf (filename : String) (oldSym newSym : Symbol) : BreakingChange :=
  { ctype := .signatureChange, symbol := newSym,
    oldValue := oldSym.signature, newValue := newSym.signature,
    filePath := filename, line := newSym.startLine,
    severity := "warning",
    description := kindStr newSym.kind ++ " " ++ newSym.name ++ " signature changed",
    suggestion := "Review if this change affects callers" }

/-- Embeds one iteration of the modified-symbols loop of
`DetectBreakingChanges` (part_006) for a key present in both maps: skip when
neither side is exported; visibility downgrade short-circuits; otherwise
parameter changes, then return-type change (both return types non-empty),
then a catch-all signature change suppressed when a parameter or return-type
change was already recorded for the same symbol name. -/
def processBothSides (filename : String) (changes : List BreakingChange)
    (oldSym newSym : Symbol) : List BreakingChange :=
  if !oldSym.exported && !newSym.exported then changes
  else if oldSym.exported && !newSym.exported then
    changes ++ [downgradeVisibilityChange filename newSym]
  else
    let changes1 := changes ++ detectParameterChanges oldSym newSym
    let changes2 :=
      if oldSym.returnType != newSym.returnType &&
         oldSym.returnType != "" && newSym.returnType != "" then
        changes1 ++ [returnTypeChangeOf filename oldSym newSym]
      else changes1
    if oldSym.signature != newSym.signature &&
       oldSym.signature != "" && newSym.signature != "" then
      let hasParamChange := changes2.any (fun c =>
        c.symbol.name == newSym.name &&
        (decide (c.ctype = .parameterChange) || decide (c.ctype = .requiredParameter)))
      let hasReturnChange := changes2.any (fun c =>
        c.symbol.name == newSym.name && decide (c.ctype = .returnTypeChange))
      if !hasParamChange && !hasReturnChange then
        changes2 ++ [signatureChangeOf filename oldSym newSym]
      else changes2
    else changes2

/-- Embeds the change-collection phase of `DetectBreakingChanges` (part_006):
the removed-symbols loop over the old map followed by the modified-symbols
loop over the new map (Go map iteration determinized as insertion order). -/
def detectChangesList (oldSymbols newSymbols : List Symbol) (filename : String) :
    List BreakingChange :=
  let oldMap := buildSymbolMap oldSymbols
  let newMap := buildSymbolMap newSymbols
  let afterRemoved := oldMap.foldl (processRemoved filename newMap newSymbols) []
  newMap.foldl (fun changes entry =>
    match lookupKV oldMap entry.fst with
    | none => changes
    | some oldSym => processBothSides filename changes oldSym entry.snd) afterRemoved

/-- Embeds `generateSummary` (part_006). -/
def generateSummary (totalChanges criticalCount errorCount warningCount : Nat) : String :=
  if totalChanges = 0 then "No breaking changes detected"
  else
    let parts : List String :=
      (if 0 < criticalCount then [toString criticalCount ++ " critical"] else []) ++
      (if 0 < errorCount then [toString errorCount ++ " error"] else []) ++
      (if 0 < warningCount then [toString warningCount ++ " warning"] else [])
    "Found " ++ toString totalChanges ++ " breaking changes: " ++
      String.intercalate ", " parts

/-- Embeds the report-assembly tail of `DetectBreakingChanges` (part_006),
applied after both symbol extractions have succeeded. -/
def buildReport (oldSymbols newSymbols : List Symbol) (filename : String) :
    BreakingChangeReport :=
  let changes := detectChangesList oldSymbols newSymbols filename
  let criticalCount := changes.countP (fun c => c.severity == "critical")
  let errorCount := changes.countP (fun c => c.severity == "error")
  let warningCount := changes.countP (fun c => c.severity == "warning")
  { fileName := filename,
    totalChanges := changes.length,
    criticalCount := criticalCount,
    errorCount := errorCount,
    warningCount := warningCount,
    changes := changes,
    summary := generateSummary changes.length criticalCount errorCount warningCount,
    hasBreaking := decide (0 < criticalCount) || decide (0 < errorCount) }

/-- Embeds `Language` (parser.go). -/
inductive Language where
  | go | typescript | javascript | python | rust | java | unknown
deriving DecidableEq

/-- Embeds `filepath.Ext` as used by `DetectLanguage` (parser.go): scan the
path backwards; stop at a path separator; the extension starts at the first
dot found.  Works on the reversed character list. -/
def extRevAux : List Char → Option (List Char)
  | [] => none
  | c :: rest =>
    if c = '/' then none
    else if c = '.' then some ['.']
    else (extRevAux rest).map (fun l => c :: l)

/-- Embeds `filepath.Ext` (Go standard library behavior on slash paths). -/
def filepathExt (s : String) : String :=
  match extRevAux s.toList.reverse with
  | none => ""
  | some l => String.mk l.reverse

/-- Embeds `DetectLanguage` (parser.go): language selected by the lowercased
file extension. -/
def detectLanguage (filename : String) : Language :=
  let ext := strToLower (filepathExt filename)
  if ext == ".go" then .go
  else if ext == ".ts" || ext == ".tsx" then .typescript
  else if ext == ".js" || ext == ".jsx" || ext == ".mjs" then .javascript
  else if ext == ".py" then .python
  else if ext == ".rs" then .rust
  else if ext == ".java" then .java
  else .unknown

/-- The four regex-driven heuristic extractors of parser.go
(`parseTypeScript`, `parsePython`, `parseRust`, `parseJava`), kept abstract:
each returns a symbol list and, in the Go code, an unconditionally nil
error, so their type here is total.  TypeScript and JavaScript share one
extractor, as in `ParseFile`. -/
structure HeuristicParsers where
  typescript : String → String → List Symbol
  python : String → String → List Symbol
  rust : String → String → List Symbol
  java : String → String → List Symbol

/-- Embeds `ParseFile` (parser.go): dispatch on the detected language.  The
native Go extractor `goP` (which wraps the Go standard library parser and is
the only branch that can fail) is a parameter taking filename and content;
unrecognized extensions yield an empty symbol list and no error. -/
def ParseFile (goP : String → String → Except String (List Symbol))
    (hp : HeuristicParsers) (filename content : String) :
    Except String (List Symbol) :=
  match detectLanguage filename with
  | .go => goP filename content
  | .typescript => .ok (hp.typescript filename content)
  | .javascript => .ok (hp.typescript filename content)
  | .python => .ok (hp.python filename content)
  | .rust => .ok (hp.rust filename content)
  | .java => .ok (hp.java filename content)
  | .unknown => .ok []

/-- Embeds `DetectBreakingChanges` (part_006): extraction failure on the old
content is tolerated as an empty old symbol set; extraction failure on the
new content is returned as an error. -/
def DetectBreakingChanges (goP : String → String → Except String (List Symbol))
    (hp : HeuristicParsers) (oldContent newContent filename : String) :
    Except String BreakingChangeReport :=
  let oldSymbols :=
    match ParseFile goP hp filename oldContent with
    | .ok s => s
    | .error _ => []
  match ParseFile goP hp filename newContent with
  | .error e => .error ("failed to parse new content: " ++ e)
  | .ok newSymbols => .ok (buildReport oldSymbols newSymbols filename)

/-- Embeds `Reference` (parser.go): an occurrence of a known symbol name. -/
structure Reference where
  filePath : String
  line : Nat
  context : String
deriving DecidableEq

/-- Embeds `SymbolTable` (parser.go): the impact analyzer's mutable index,
threaded explicitly through the operations of this embedding. -/
structure SymbolTable where
  symbols : List (String × List Symbol)
  byFile : List (String × List Symbol)
  references : List (String × List Reference)
deriving DecidableEq

/-- Embeds the empty table built by `NewImpactAnalyzer` (parser.go). -/
def emptyTable : SymbolTable :=
  { symbols := [], byFile := [], references := [] }

/-- Embeds `Impact` (parser.go). -/
structure Impact where
  changedSymbol : Symbol
  affectedFiles : List String
  affectedSymbols : List Symbol
  references : List Reference
  severity : String
  description : String
deriving DecidableEq

/-- Embeds `FileImpact` (parser.go). -/
structure FileImpact where
  filePath : String
  changedSymbols : List Symbol
  impacts : List Impact
  totalReferences : Nat
  affectedFiles : List String
  overallSeverity : String
deriving DecidableEq

/-- Word characters of the regular-expression class backslash-w. -/
def isWordChar (c : Char) : Bool :=
  c.isAlphanum || c == '_'

/-- The pattern characters occur in `l` starting at index `i`. -/
def substringAt (l : List Char) (i : Nat) (pat : List Char) : Bool :=
  decide ((l.drop i).take pat.length = pat)

/-- Both neighbors of the occupied range `[i, i+len)` are absent or non-word. -/
def boundaryAt (l : List Char) (i len : Nat) : Bool :=
  (decide (i = 0) || !isWordChar (l.getD (i - 1) ' ')) &&
  (decide (l.length ≤ i + len) || !isWordChar (l.getD (i + len) ' '))

/-- Embeds the `findReferences` regular-expression test (parser.go): whether
the word-boundary-delimited, quoted symbol name matches somewhere in the
line (exact for the identifier-shaped names the extractors produce). -/
def wordBoundaryMatch (name line : String) : Bool :=
  let n := name.toList
  let l := line.toList
  (List.range (l.length + 1)).any (fun i => substringAt l i n && boundaryAt l i n.length)

/-- Embeds the inner symbol-name loop of `findReferences` (parser.go) for one
line of the indexed file: append a reference for every known symbol name
matching the line, unless the line is a recorded definition site of that
name in this file. -/
def referencesForLine (symbols : List (String × List Symbol)) (filename : String)
    (lineNum : Nat) (line : String)
    (refs : List (String × List Reference)) : List (String × List Reference) :=
  symbols.foldl (fun refs entry =>
    let symbolName := entry.fst
    if wordBoundaryMatch symbolName line then
      let isDefinition := (lookupList symbols symbolName).any (fun sym =>
        sym.filePath == filename && decide (sym.startLine = lineNum + 1))
      if !isDefinition then
        appendKV refs symbolName
          { filePath := filename, line := lineNum + 1, context := line.trim }
      else refs
    else refs) refs

/-- Embeds `findReferences` (parser.go): scan every line of the content,
skipping lines whose trimmed form starts with a comment marker, and append
references for matching known symbol names. -/
def findReferences (t : SymbolTable) (filename content : String) : SymbolTable :=
  let lines := content.splitOn "\n"
  let newRefs := lines.enum.foldl (fun refs p =>
    let trimmedLine := p.snd.trim
    if trimmedLine.startsWith "//" || trimmedLine.startsWith "#" ||
       trimmedLine.startsWith "/*" then refs
    else referencesForLine t.symbols filename p.fst p.snd refs) t.references
  { t with references := newRefs }

/-- Embeds `IndexFile` (parser.go): parse the file (failure leaves the table
untouched and returns the error), replace the file's `byFile` entry, append
every symbol under its name, then scan the content for references to the
currently known symbol names. -/
def IndexFile (goP : String → String → Except String (List Symbol))
    (hp : HeuristicParsers) (filename content : String) (t : SymbolTable) :
    Except String Unit × SymbolTable :=
  match ParseFile goP hp filename content with
  | .error e => (.error ("failed to parse " ++ filename ++ ": " ++ e), t)
  | .ok symbols =>
    let t1 : SymbolTable :=
      { t with
        byFile := setKV t.byFile filename symbols,
        symbols := symbols.foldl (fun m sym => appendKV m sym.name sym) t.symbols }
    (.ok (), findReferences t1 filename content)

/-- Embeds `symbolChanged` (parser.go). -/
def symbolChanged (old new : Symbol) : Bool :=
  old.signature != new.signature ||
  decide (old.parameters.length ≠ new.parameters.length) ||
  (List.range old.parameters.length).any (fun i =>
    old.parameters.getD i "" != new.parameters.getD i "") ||
  old.returnType != new.returnType ||
  decide (old.exported ≠ new.exported)

/-- Embeds the pre-escalation severity and description assignment of
`analyzeSymbolImpact` (parser.go): removed symbols are high (critical when
exported), added symbols low, modified symbols start at medium and are
raised by parameter-count, return-type and visibility differences. -/
def impactSeverityDesc (sym : Symbol) (oldMap newMap : List (String × Symbol)) :
    String × String :=
  let key := symbolKey sym
  let stillExists := (lookupKV newMap key).isSome
  match lookupKV oldMap key with
  | some oldSym =>
    if !stillExists then
      if sym.exported then
        ("critical", "Symbol " ++ sym.name ++ " was removed (was exported/public)")
      else
        ("high", "Symbol " ++ sym.name ++ " was removed")
    else
      let changes0 : List String := []
      let changes1 :=
        if oldSym.signature != sym.signature then changes0 ++ ["signature"] else changes0
      let step2 :=
        if decide (oldSym.parameters.length ≠ sym.parameters.length) then
          (changes1 ++ ["parameters"], "high")
        else (changes1, "medium")
      let step3 :=
        if oldSym.returnType != sym.returnType then
          (step2.fst ++ ["return type"], "high")
        else step2
      let step4 :=
        if decide (oldSym.exported ≠ sym.exported) then
          (step3.fst ++ ["visibility"],
           if !sym.exported && oldSym.exported then "critical" else step3.snd)
        else step3
      (step4.snd, "Symbol " ++ sym.name ++ " modified: " ++ String.intercalate ", " step4.fst)
  | none => ("low", "New symbol " ++ sym.name ++ " added")

/-- Embeds the reference-count escalation at the end of
`analyzeSymbolImpact` (parser.go): an if/else-if chain, so the more-than-50
branch runs only when the more-than-10-and-medium branch did not. -/
def escalateSeverity (sev : String) (refCount : Nat) : String :=
  if decide (10 < refCount) && (sev == "medium") then "high"
  else if decide (50 < refCount) then "critical"
  else sev

/-- Embeds `analyzeSymbolImpact` (parser.go): references are read from the
shared index under the symbol's name; affected files are the distinct
reference files other than the symbol's own; severity is the escalated
base severity. -/
def analyzeSymbolImpact (t : SymbolTable) (sym : Symbol)
    (oldMap newMap : List (String × Symbol)) : Impact :=
  let refs := lookupList t.references sym.name
  let affectedFiles :=
    ((refs.filter (fun r => r.filePath != sym.filePath)).map (fun r => r.filePath)).foldl
      (fun acc f => if acc.any (fun g => g == f) then acc else acc ++ [f]) []
  let base := impactSeverityDesc sym oldMap newMap
  { changedSymbol := sym,
    affectedFiles := affectedFiles,
    affectedSymbols := [],
    references := refs,
    severity := escalateSeverity base.fst refs.length,
    description := base.snd }

/-- Embeds the `severityOrder` map of `calculateOverallSeverity` (parser.go);
a Go map read of an unknown key yields the zero value 0. -/
def severityOrder (s : String) : Nat :=
  if s == "low" then 0
  else if s == "medium" then 1
  else if s == "high" then 2
  else if s == "critical" then 3
  else 0

/-- Embeds `calculateOverallSeverity` (parser.go). -/
def calculateOverallSeverity (impacts : List Impact) : String :=
  if impacts.length = 0 then "low"
  else impacts.foldl (fun maxSev imp =>
    if severityOrder maxSev < severityOrder imp.severity then imp.severity else maxSev) "low"

/-- Embeds the body of `AnalyzeImpact` (parser.go) after both extractions:
classify every key of either map as removed, modified or added, analyze each
changed symbol against the shared index, and aggregate. -/
def analyzeImpactCore (t : SymbolTable) (oldSymbols newSymbols : List Symbol)
    (filename : String) : FileImpact :=
  let oldSymbolMap := oldSymbols.foldl (fun m sym => setKV m (symbolKey sym) sym) []
  let newSymbolMap := newSymbols.foldl (fun m sym => setKV m (symbolKey sym) sym) []
  let removedOrModified := oldSymbolMap.foldl (fun acc entry =>
    match lookupKV newSymbolMap entry.fst with
    | none => acc ++ [entry.snd]
    | some newSym => if symbolChanged entry.snd newSym then acc ++ [newSym] else acc) []
  let added := newSymbolMap.foldl (fun acc entry =>
    if (lookupKV oldSymbolMap entry.fst).isNone then acc ++ [entry.snd] else acc) []
  let changedSymbols := removedOrModified ++ added
  let impacts := changedSymbols.map (fun sym =>
    analyzeSymbolImpact t sym oldSymbolMap newSymbolMap)
  let affectedFiles :=
    ((impacts.foldl (fun acc i => acc ++ i.affectedFiles) []).foldl
      (fun acc f => if acc.any (fun g => g == f) then acc else acc ++ [f]) []).filter
      (fun f => f != filename)
  { filePath := filename,
    changedSymbols := changedSymbols,
    impacts := impacts,
    totalReferences := (impacts.map (fun i => i.references.length)).sum,
    affectedFiles := affectedFiles,
    overallSeverity := calculateOverallSeverity impacts }

/-- Embeds `AnalyzeImpact` (parser.go): extraction failure on the old content
is tolerated as an empty old symbol set; failure on the new content is
returned as an error.  The table is threaded through unchanged, mirroring
that the Go method only reads the index. -/
def AnalyzeImpact (goP : String → String → Except String (List Symbol))
    (hp : HeuristicParsers) (oldContent newContent filename : String)
    (t : SymbolTable) : Except String FileImpact × SymbolTable :=
  let oldSymbols :=
    match ParseFile goP hp filename oldContent with
    | .ok s => s
    | .error _ => []
  match ParseFile goP hp filename newContent with
  | .error e => (.error ("failed to parse new content: " ++ e), t)
  | .ok newSymbols => (.ok (analyzeImpactCore t oldSymbols newSymbols filename), t)

/-- Growth relation on slice-valued Go maps: every key's slice in `m'`
extends its slice in `m`. -/
def growsTo {α : Type} (m m' : List (String × List α)) : Prop :=
  ∀ k, ∃ ext, lookupList m' k = lookupList m k ++ ext

/-- Result-kind test for the embedded Go error returns. -/
def isOkE {α : Type} : Except String α → Bool
  | .ok _ => true
  | .error _ => false

/-- Distinctness of the keys of an association list, the invariant of every
Go map in the embedding. -/
def keysOK {α : Type} (m : List (String × α)) : Prop :=
  m.Pairwise (fun p q => p.fst ≠ q.fst)

/-- Modelled from the spec: the native Go extraction (the Go standard library
parser wrapped by `parseGo`, which is not part of src) fails on syntactically
invalid source such as a lone closing brace and succeeds otherwise; this
model fixes its result on the concrete inputs used in this development
(a lone closing brace, and otherwise contents on which the symbol list is
not consulted). -/
def goParseModel (_filename content : String) : Except String (List Symbol) :=
  if content == "\x7d" then .error "expected declaration, found \x7d"
  else .ok []

/-- Concrete instantiation of the heuristic extractors, used to evaluate the
universally quantified theorems at a specific input. -/
def heurNone : HeuristicParsers :=
  { typescript := fun _ _ => [],
    python := fun _ _ => [],
    rust := fun _ _ => [],
    java := fun _ _ => [] }

/-- Modelled from the spec: the native Go extraction (absent from src) of
`func GetUser(id int) *User` at lines 3-5 of the removal scenario of
section 8 of the spec. -/
def getUserS : Symbol :=
  { name := "GetUser", kind := .functionK, startLine := 3, endLine := 5,
    signature := "func GetUser(id int) *User", exported := true,
    parameters := ["id int"], returnType := "*User", parent := "",
    filePath := "user.go" }

/-- Modelled from the spec: the native Go extraction (absent from src) of
`func DeleteUser(id int) error` at lines 7-9 of the removal scenario of
section 8 of the spec. -/
def deleteUserS : Symbol :=
  { name := "DeleteUser", kind := .functionK, startLine := 7, endLine := 9,
    signature := "func DeleteUser(id int) error", exported := true,
    parameters := ["id int"], returnType := "error", parent := "",
    filePath := "user.go" }

/-- Old revision of a symbol used to exercise the modified-symbol path of the
impact analyzer: one parameter, no return value. -/
def oldFoo : Symbol :=
  { name := "Foo", kind := .functionK, startLine := 1, endLine := 3,
    signature := "func Foo(a int)", exported := true,
    parameters := ["a int"], returnType := "", parent := "",
    filePath := "lib.go" }

/-- New revision of `oldFoo`: same parameter count, return type and export
flag (so the pre-escalation severity stays medium), but a renamed parameter
changes the signature string, which makes `symbolChanged` true. -/
def newFoo : Symbol :=
  { oldFoo with signature := "func Foo(b int)", parameters := ["b int"] }

/-- Revision of `oldFoo` that only changes the signature string (parameters,
return type and export flag untouched), exercising the catch-all
signature-change rule. -/
def fooSigOnly : Symbol :=
  { oldFoo with signature := "func Foo(x int)" }

/-- Revision of `getUserS` with one added required parameter, exercising the
parameter-count rules. -/
def getUserTwoParams : Symbol :=
  { getUserS with
    parameters := ["id int", "includeDeleted bool"],
    signature := "func GetUser(id int, includeDeleted bool) *User" }

/-- A list of `n` distinct recorded references to a symbol name, all in a
different file from the symbol's own. -/
def refsN (n : Nat) (name : String) : List Reference :=
  (List.range n).map (fun i =>
    { filePath := "other.go", line := i + 1, context := name })

/-- An analyzer index state recording exactly `n` references to `name`, as
arises after indexing files that mention the name on `n` lines. -/
def tableWithRefs (name : String) (n : Nat) : SymbolTable :=
  { symbols := [], byFile := [], references := [(name, refsN n name)] }

lemma lookupKV_setKV_self {α : Type} (m : List (String × α)) (k : String) (v : α) :
    lookupKV (setKV m k v) k = some v := by
  induction m with
  | nil => simp [setKV, lookupKV]
  | cons p m ih =>
    by_cases h : p.fst = k
    · simp [setKV, h, lookupKV]
    · simp [setKV, h, lookupKV, ih]

lemma lookupKV_setKV_ne {α : Type} (m : List (String × α)) {k k' : String} (v : α)
    (h : k' ≠ k) : lookupKV (setKV m k v) k' = lookupKV m k' := by
  have hk : k ≠ k' := Ne.symm h
  induction m with
  | nil => simp [setKV, lookupKV, hk]
  | cons p m ih =>
    by_cases hp : p.fst = k
    · have hpk : p.fst ≠ k' := hp ▸ hk
      simp [setKV, hp, lookupKV, hk, hpk]
    · simp only [setKV, hp, if_false, lookupKV]
      by_cases hq : p.fst = k'
      · simp [hq]
      · simp [hq, ih]

lemma setKV_of_lookup_none {α : Type} (m : List (String × α)) (k : String) (v : α)
    (h : lookupKV m k = none) : setKV m k v = m ++ [(k, v)] := by
  induction m with
  | nil => simp [setKV]
  | cons p m ih =>
    by_cases hp : p.fst = k
    · simp [lookupKV, hp] at h
    · simp only [lookupKV, hp, if_false] at h
      simp [setKV, hp, ih h]

lemma lookupKV_append_of_some {α : Type} {m : List (String × α)} {k : String} {v : α}
    (m' : List (String × α)) (h : lookupKV m k = some v) :
    lookupKV (m ++ m') k = some v := by
  induction m with
  | nil => simp [lookupKV] at h
  | cons p m ih =>
    by_cases hp : p.fst = k
    · simp [lookupKV, hp] at h ⊢; exact h
    · simp only [lookupKV, hp, if_false] at h ⊢
      exact ih h

lemma lookupKV_append_of_none {α : Type} {m : List (String × α)} {k : String}
    (m' : List (String × α)) (h : lookupKV m k = none) :
    lookupKV (m ++ m') k = lookupKV m' k := by
  induction m with
  | nil => simp
  | cons p m ih =>
    by_cases hp : p.fst = k
    · simp [lookupKV, hp] at h
    · simp only [lookupKV, hp, if_false] at h ⊢
      exact ih h

lemma lookupKV_eq_none_of_forall {α : Type} {m : List (String × α)} {k : String}
    (h : ∀ q ∈ m, q.fst ≠ k) : lookupKV m k = none := by
  induction m with
  | nil => rfl
  | cons p m ih =>
    simp only [lookupKV, h p (by simp), if_false]
    exact ih (fun q hq => h q (by simp [hq]))

lemma forall_ne_of_lookupKV_eq_none {α : Type} {m : List (String × α)} {k : String}
    (h : lookupKV m k = none) : ∀ q ∈ m, q.fst ≠ k := by
  induction m with
  | nil => simp
  | cons p m ih =>
    by_cases hp : p.fst = k
    · simp [lookupKV, hp] at h
    · simp only [lookupKV, hp, if_false] at h
      intro q hq
      rcases List.mem_cons.mp hq with hq | hq
      · exact hq ▸ hp
      · exact ih h q hq

lemma lookupList_appendKV_self {α : Type} (m : List (String × List α)) (k : String)
    (v : α) : lookupList (appendKV m k v) k = lookupList m k ++ [v] := by
  induction m with
  | nil => simp [appendKV, lookupList, lookupKV]
  | cons p m ih =>
    by_cases h : p.fst = k
    · simp [appendKV, h, lookupList, lookupKV]
    · simp only [appendKV, h, if_false, lookupList, lookupKV]
      exact ih

lemma lookupList_appendKV_ne {α : Type} (m : List (String × List α)) {k k' : String}
    (v : α) (h : k' ≠ k) : lookupList (appendKV m k v) k' = lookupList m k' := by
  have hk : k ≠ k' := Ne.symm h
  induction m with
  | nil => simp [appendKV, lookupList, lookupKV, hk]
  | cons p m ih =>
    by_cases hp : p.fst = k
    · have hpk : p.fst ≠ k' := hp ▸ hk
      simp [appendKV, hp, lookupList, lookupKV, hpk, hk]
    · simp only [appendKV, hp, if_false, lookupList, lookupKV]
      by_cases hq : p.fst = k'
      · simp [hq]
      · simpa [hq, lookupList] using ih

lemma growsTo_refl {α : Type} (m : List (String × List α)) : growsTo m m :=
  fun _ => ⟨[], by simp⟩

lemma growsTo_trans {α : Type} {a b c : List (String × List α)}
    (hab : growsTo a b) (hbc : growsTo b c) : growsTo a c := by
  intro k
  obtain ⟨e1, h1⟩ := hab k
  obtain ⟨e2, h2⟩ := hbc k
  exact ⟨e1 ++ e2, by rw [h2, h1, List.append_assoc]⟩

lemma growsTo_appendKV {α : Type} (m : List (String × List α)) (k : String) (v : α) :
    growsTo m (appendKV m k v) := by
  intro k'
  by_cases h : k' = k
  · subst h
    exact ⟨[v], lookupList_appendKV_self m k' v⟩
  · exact ⟨[], by simp [lookupList_appendKV_ne m v h]⟩

lemma growsTo_foldl {α γ : Type} (step : List (String × List α) → γ → List (String × List α))
    (l : List γ) (h : ∀ m a, growsTo m (step m a)) :
    ∀ m, growsTo m (l.foldl step m) := by
  induction l with
  | nil => intro m; exact growsTo_refl m
  | cons x xs ih =>
    intro m
    exact growsTo_trans (h m x) (ih (step m x))

lemma foldl_fixed {γ δ : Type} (step : δ → γ → δ) (l : List γ)
    (h : ∀ acc a, a ∈ l → step acc a = acc) : ∀ acc, l.foldl step acc = acc := by
  induction l with
  | nil => intro acc; rfl
  | cons x xs ih =>
    intro acc
    rw [List.foldl_cons, h acc x (by simp)]
    exact ih (fun acc a ha => h acc a (by simp [ha])) acc

lemma mem_setKV {α : Type} {m : List (String × α)} {k : String} {v : α} {q : String × α}
    (hq : q ∈ setKV m k v) : q = (k, v) ∨ q ∈ m := by
  induction m with
  | nil => simpa [setKV] using hq
  | cons p m ih =>
    by_cases hp : p.fst = k
    · simp only [setKV, hp, if_true] at hq
      rcases List.mem_cons.mp hq with hq | hq
      · exact Or.inl hq
      · exact Or.inr (by simp [hq])
    · simp only [setKV, hp, if_false] at hq
      rcases List.mem_cons.mp hq with hq | hq
      · exact Or.inr (by simp [hq])
      · rcases ih hq with hq | hq
        · exact Or.inl hq
        · exact Or.inr (by simp [hq])

lemma keysOK_setKV {α : Type} {m : List (String × α)} (h : keysOK m) (k : String)
    (v : α) : keysOK (setKV m k v) := by
  induction m with
  | nil => simp [keysOK, setKV]
  | cons p m ih =>
    rw [keysOK, List.pairwise_cons] at h
    obtain ⟨hp1, hp2⟩ := h
    by_cases hp : p.fst = k
    · rw [keysOK, setKV, if_pos hp, List.pairwise_cons]
      exact ⟨fun q hq => hp ▸ hp1 q hq, hp2⟩
    · rw [keysOK, setKV, if_neg hp, List.pairwise_cons]
      refine ⟨fun q hq => ?_, ih hp2⟩
      rcases mem_setKV hq with hq | hq
      · rw [hq]; exact hp
      · exact hp1 q hq

lemma lookupKV_of_keysOK_mem {α : Type} {m : List (String × α)} (h : keysOK m)
    {k : String} {v : α} (hm : (k, v) ∈ m) : lookupKV m k = some v := by
  induction m with
  | nil => simp at hm
  | cons p m ih =>
    rw [keysOK, List.pairwise_cons] at h
    obtain ⟨hp1, hp2⟩ := h
    rcases List.mem_cons.mp hm with hm | hm
    · simp [lookupKV, ← hm]
    · have : p.fst ≠ k := hp1 (k, v) hm
      simp only [lookupKV, this, if_false]
      exact ih hp2 hm

lemma keysOK_foldl_setKV {α : Type} (keyOf : α → String) (l : List α) :
    ∀ m : List (String × α), keysOK m →
      keysOK (l.foldl (fun m s => setKV m (keyOf s) s) m) := by
  induction l with
  | nil => intro m hm; exact hm
  | cons x xs ih =>
    intro m hm
    exact ih (setKV m (keyOf x) x) (keysOK_setKV hm (keyOf x) x)

lemma keysOK_buildSymbolMap (syms : List Symbol) : keysOK (buildSymbolMap syms) :=
  keysOK_foldl_setKV symbolKey syms [] (by simp [keysOK])

lemma detectParameterChanges_self (o : Symbol) : detectParameterChanges o o = [] := by
  simp [detectParameterChanges]

lemma processBothSides_self (f : String) (acc : List BreakingChange) (o : Symbol) :
    processBothSides f acc o o = acc := by
  by_cases hexp : o.exported
  · simp [processBothSides, hexp, detectParameterChanges_self]
  · simp [processBothSides, hexp]

lemma detectChangesList_self (syms : List Symbol) (f : String) :
    detectChangesList syms syms f = [] := by
  have hOK := keysOK_buildSymbolMap syms
  have h1 : ∀ (acc : List BreakingChange) (entry : String × Symbol),
      entry ∈ buildSymbolMap syms →
      processRemoved f (buildSymbolMap syms) syms acc entry = acc := by
    intro acc entry hmem
    have hl : lookupKV (buildSymbolMap syms) entry.fst = some entry.snd :=
      lookupKV_of_keysOK_mem hOK (by simpa using hmem)
    simp [processRemoved, hl]
  have h2 : ∀ (acc : List BreakingChange) (entry : String × Symbol),
      entry ∈ buildSymbolMap syms →
      (match lookupKV (buildSymbolMap syms) entry.fst with
        | none => acc
        | some oldSym => processBothSides f acc oldSym entry.snd) = acc := by
    intro acc entry hmem
    have hl : lookupKV (buildSymbolMap syms) entry.fst = some entry.snd :=
      lookupKV_of_keysOK_mem hOK (by simpa using hmem)
    rw [hl]
    exact processBothSides_self f acc entry.snd
  simp only [detectChangesList]
  rw [foldl_fixed _ _ h1, foldl_fixed _ _ h2]

lemma detectChangesList_pair (o n : Symbol) (f : String)
    (hk : symbolKey o = symbolKey n) :
    detectChangesList [o] [n] f = processBothSides f [] o n := by
  simp [detectChangesList, buildSymbolMap, setKV, processRemoved, lookupKV, hk]

lemma detectChangesList_only_old (o : Symbol) (f : String) :
    detectChangesList [o] [] f = processRemoved f [] [] [] (symbolKey o, o) := by
  simp [detectChangesList, buildSymbolMap, setKV]

lemma detectChangesList_add (oldSymbols : List Symbol) (newSym : Symbol) (f : String)
    (h : lookupKV (buildSymbolMap oldSymbols) (symbolKey newSym) = none) :
    detectChangesList oldSymbols (oldSymbols ++ [newSym]) f = [] := by
  have hOK := keysOK_buildSymbolMap oldSymbols
  have hnew : buildSymbolMap (oldSymbols ++ [newSym]) =
      buildSymbolMap oldSymbols ++ [(symbolKey newSym, newSym)] := by
    simp only [buildSymbolMap, List.foldl_append, List.foldl_cons, List.foldl_nil]
    exact setKV_of_lookup_none _ _ _ h
  have h1 : ∀ (acc : List BreakingChange) (entry : String × Symbol),
      entry ∈ buildSymbolMap oldSymbols →
      processRemoved f (buildSymbolMap oldSymbols ++ [(symbolKey newSym, newSym)])
        (oldSymbols ++ [newSym]) acc entry = acc := by
    intro acc entry hmem
    have hl : lookupKV (buildSymbolMap oldSymbols) entry.fst = some entry.snd :=
      lookupKV_of_keysOK_mem hOK (by simpa using hmem)
    simp [processRemoved, lookupKV_append_of_some _ hl]
  have h2 : ∀ (acc : List BreakingChange) (entry : String × Symbol),
      entry ∈ buildSymbolMap oldSymbols →
      (match lookupKV (buildSymbolMap oldSymbols) entry.fst with
        | none => acc
        | some oldSym => processBothSides f acc oldSym entry.snd) = acc := by
    intro acc entry hmem
    have hl : lookupKV (buildSymbolMap oldSymbols) entry.fst = some entry.snd :=
      lookupKV_of_keysOK_mem hOK (by simpa using hmem)
    rw [hl]
    exact processBothSides_self f acc entry.snd
  simp only [detectChangesList, hnew]
  rw [foldl_fixed _ _ h1, List.foldl_append, foldl_fixed _ _ h2]
  simp [h]

lemma filterMap_if_eq_map_filter {α β : Type} (p : α → Bool) (g : α → β) (l : List α) :
    l.filterMap (fun a => if p a then some (g a) else none) = (l.filter p).map g := by
  induction l with
  | nil => simp
  | cons x xs ih => by_cases h : p x <;> simp [h, ih]

lemma mem_detectParameterChanges {o n : Symbol} {c : BreakingChange}
    (hc : c ∈ detectParameterChanges o n) :
    c.symbol = n ∧ (c.ctype = .requiredParameter ∨ c.ctype = .parameterChange) := by
  simp only [detectParameterChanges, List.mem_append] at hc
  rcases hc with (hc | hc) | hc
  · by_cases hl : o.parameters.length < n.parameters.length
    · simp only [hl, if_true, List.mem_singleton] at hc
      subst hc
      exact ⟨rfl, Or.inl rfl⟩
    · simp [hl] at hc
  · by_cases hl : n.parameters.length < o.parameters.length
    · simp only [hl, if_true, List.mem_singleton] at hc
      subst hc
      exact ⟨rfl, Or.inr rfl⟩
    · simp [hl] at hc
  · rcases List.mem_filterMap.mp hc with ⟨i, _, hi⟩
    by_cases hd : (o.parameters.getD i "" != n.parameters.getD i "") = true
    · rw [if_pos hd] at hi
      rcases Option.some.inj hi with hi
      subst hi
      exact ⟨rfl, Or.inr rfl⟩
    · rw [if_neg hd] at hi
      exact absurd hi (by simp)

/-- C7 counterexample artifact: the claim quantifies over every filename and
source text, but a syntactically invalid Go file makes the embedded
`DetectBreakingChanges` return an error rather than a zero-change report. -/
theorem C7_counterexample :
    DetectBreakingChanges goParseModel heurNone "\x7d" "\x7d" "a.go" =
      .error "failed to parse new content: expected declaration, found \x7d" := by
  rfl

/-- C7 (amended): whenever extraction of the content succeeds (always, except
for syntactically invalid Go sources), `DetectBreakingChanges` on two
identical texts returns a report with `hasBreaking = false` and
`totalChanges = 0`. -/
theorem C7_identical_texts :
    ∀ (goP : String → String → Except String (List Symbol)) (hp : HeuristicParsers)
      (filename content : String) (syms : List Symbol),
      ParseFile goP hp filename content = .ok syms →
      DetectBreakingChanges goP hp content content filename =
        .ok (buildReport syms syms filename) ∧
      (buildReport syms syms filename).hasBreaking = false ∧
      (buildReport syms syms filename).totalChanges = 0 := by
  intro goP hp filename content syms hparse
  refine ⟨?_, ?_, ?_⟩
  · simp [DetectBreakingChanges, hparse]
  · simp [buildReport, detectChangesList_self]
  · simp [buildReport, detectChangesList_self]

/-- C7 witness: the theorem applied to an empty Go file, whose extraction
succeeds with an empty symbol list. -/
theorem C7_identical_texts_witness :
    DetectBreakingChanges goParseModel heurNone "" "" "a.go" =
      .ok (buildReport [] [] "a.go") ∧
    (buildReport [] [] "a.go").hasBreaking = false := by
  have h := C7_identical_texts goParseModel heurNone "a.go" "" [] (by rfl)
  exact ⟨h.1, h.2.1⟩

/-- C10: `AnalyzeImpact` never mutates the analyzer's symbol table: the
threaded table returned by the embedding equals the input table for every
prior index state and all inputs, because the Go method only reads the
index. -/
theorem C10_analyze_impact_frame :
    ∀ (goP : String → String → Except String (List Symbol)) (hp : HeuristicParsers)
      (oldContent newContent filename : String) (t : SymbolTable),
      (AnalyzeImpact goP hp oldContent newContent filename t).snd = t := by
  intro goP hp oldContent newContent filename t
  rw [AnalyzeImpact]
  cases ParseFile goP hp filename newContent <;> rfl

/-- C8: the detector and the impact analyzer return an error exactly when
extraction of the new content fails; extraction can fail only for the
natively parsed Go language; and a failing extraction of the old content is
treated as an empty old symbol set rather than an error. -/
theorem C8_error_propagation :
    (∀ (goP : String → String → Except String (List Symbol)) (hp : HeuristicParsers)
      (oldContent newContent filename : String),
      isOkE (DetectBreakingChanges goP hp oldContent newContent filename) =
        isOkE (ParseFile goP hp filename newContent)) ∧
    (∀ (goP : String → String → Except String (List Symbol)) (hp : HeuristicParsers)
      (oldContent newContent filename : String) (t : SymbolTable),
      isOkE (AnalyzeImpact goP hp oldContent newContent filename t).fst =
        isOkE (ParseFile goP hp filename newContent)) ∧
    (∀ (goP : String → String → Except String (List Symbol)) (hp : HeuristicParsers)
      (filename content : String),
      isOkE (ParseFile goP hp filename content) = false →
      detectLanguage filename = .go) ∧
    (∀ (goP : String → String → Except String (List Symbol)) (hp : HeuristicParsers)
      (oldContent newContent filename : String) (e : String) (syms : List Symbol),
      ParseFile goP hp filename oldContent = .error e →
      ParseFile goP hp filename newContent = .ok syms →
      DetectBreakingChanges goP hp oldContent newContent filename =
        .ok (buildReport [] syms filename)) ∧
    (∀ (goP : String → String → Except String (List Symbol)) (hp : HeuristicParsers)
      (oldContent newContent filename : String) (e : String) (syms : List Symbol)
      (t : SymbolTable),
      ParseFile goP hp filename oldContent = .error e →
      ParseFile goP hp filename newContent = .ok syms →
      AnalyzeImpact goP hp oldContent newContent filename t =
        (.ok (analyzeImpactCore t [] syms filename), t)) := by
  refine ⟨?_, ?_, ?_, ?_, ?_⟩
  · intro goP hp oldContent newContent filename
    rw [DetectBreakingChanges]
    cases ParseFile goP hp filename newContent <;> rfl
  · intro goP hp oldContent newContent filename t
    rw [AnalyzeImpact]
    cases ParseFile goP hp filename newContent <;> rfl
  · intro goP hp filename content herr
    rw [ParseFile] at herr
    cases hL : detectLanguage filename <;> simp [hL, isOkE] at herr ⊢
  · intro goP hp oldContent newContent filename e syms hold hnew
    simp [DetectBreakingChanges, hold, hnew]
  · intro goP hp oldContent newContent filename e syms t hold hnew
    simp [AnalyzeImpact, hold, hnew]

/-- C8 witness: at a concrete failing old Go text and succeeding new text,
the theorem yields the tolerated-old-failure behavior and the only-Go fact. -/
theorem C8_error_propagation_witness :
    DetectBreakingChanges goParseModel heurNone "\x7d" "" "a.go" =
      .ok (buildReport [] [] "a.go") ∧
    AnalyzeImpact goParseModel heurNone "\x7d" "" "a.go" emptyTable =
      (.ok (analyzeImpactCore emptyTable [] [] "a.go"), emptyTable) ∧
    detectLanguage "a.go" = .go := by
  refine ⟨?_, ?_, ?_⟩
  · exact C8_error_propagation.2.2.2.1 goParseModel heurNone "\x7d" "" "a.go"
      "expected declaration, found \x7d" [] (by rfl) (by rfl)
  · exact C8_error_propagation.2.2.2.2 goParseModel heurNone "\x7d" "" "a.go"
      "expected declaration, found \x7d" [] emptyTable (by rfl) (by rfl)
  · exact C8_error_propagation.2.2.1 goParseModel heurNone "a.go" "\x7d" (by rfl)

lemma growsTo_referencesForLine (symbols : List (String × List Symbol))
    (filename : String) (lineNum : Nat) (line : String)
    (refs : List (String × List Reference)) :
    growsTo refs (referencesForLine symbols filename lineNum line refs) := by
  rw [referencesForLine]
  apply growsTo_foldl
  intro m entry
  dsimp only
  split
  · split
    · exact growsTo_appendKV _ _ _
    · exact growsTo_refl _
  · exact growsTo_refl _

lemma growsTo_findReferences (t : SymbolTable) (filename content : String) :
    growsTo t.references (findReferences t filename content).references := by
  rw [findReferences]
  dsimp only
  apply growsTo_foldl
  intro m p
  split
  · exact growsTo_refl _
  · exact growsTo_referencesForLine _ _ _ _ _

/-- C9: a successful `IndexFile` call replaces the `byFile` entry of the
indexed path (leaving every other path's entry untouched) and only appends
to the name-keyed symbol lists and to the reference lists, so re-indexing
a path leaves all previously recorded symbols and references in place. -/
theorem C9_index_append_only :
    ∀ (goP : String → String → Except String (List Symbol)) (hp : HeuristicParsers)
      (filename content : String) (t : SymbolTable) (syms : List Symbol),
      ParseFile goP hp filename content = .ok syms →
      (IndexFile goP hp filename content t).fst = .ok () ∧
      (∀ name, ∃ ext,
        lookupList (IndexFile goP hp filename content t).snd.symbols name =
          lookupList t.symbols name ++ ext) ∧
      (∀ name, ∃ ext,
        lookupList (IndexFile goP hp filename content t).snd.references name =
          lookupList t.references name ++ ext) ∧
      (∀ g, g ≠ filename →
        lookupKV (IndexFile goP hp filename content t).snd.byFile g =
          lookupKV t.byFile g) ∧
      lookupKV (IndexFile goP hp filename content t).snd.byFile filename = some syms := by
  intro goP hp filename content t syms hparse
  have hsnd : (IndexFile goP hp filename content t).snd =
      findReferences
        { t with
          byFile := setKV t.byFile filename syms,
          symbols := syms.foldl (fun m sym => appendKV m sym.name sym) t.symbols }
        filename content := by
    simp [IndexFile, hparse]
  refine ⟨by simp [IndexFile, hparse], ?_, ?_, ?_, ?_⟩
  · intro name
    rw [hsnd]
    exact growsTo_foldl (fun m sym => appendKV m sym.name sym) syms
      (fun m a => growsTo_appendKV m a.name a) t.symbols name
  · intro name
    rw [hsnd]
    exact growsTo_findReferences _ filename content name
  · intro g hg
    rw [hsnd]
    exact lookupKV_setKV_ne t.byFile syms hg
  · rw [hsnd]
    exact lookupKV_setKV_self t.byFile filename syms

/-- C9 witness: indexing a file of an unrecognized language (whose extraction
succeeds with an empty symbol list) into the empty table. -/
theorem C9_index_append_only_witness :
    (IndexFile goParseModel heurNone "conf.yaml" "A B" emptyTable).fst = .ok () ∧
    (∃ ext,
      lookupList (IndexFile goParseModel heurNone "conf.yaml" "A B" emptyTable).snd.references
        "A" = lookupList emptyTable.references "A" ++ ext) ∧
    lookupKV (IndexFile goParseModel heurNone "conf.yaml" "A B" emptyTable).snd.byFile
      "conf.yaml" = some [] := by
  have h := C9_index_append_only goParseModel heurNone "conf.yaml" "A B" emptyTable []
    (by rfl)
  exact ⟨h.1, h.2.2.1 "A", h.2.2.2.2⟩

/-- C5: an exported symbol missing from the new side with no rename-heuristic
match yields exactly one critical removal with breaking status; removing an
unexported symbol yields no change at all; and the concrete GetUser plus
DeleteUser scenario yields one critical removal for DeleteUser and no change
for GetUser. -/
theorem C5_removal_rules :
    (∀ (o : Symbol) (f : String), o.exported = true →
      (buildReport [o] [] f).changes.map (fun c => (c.ctype, c.severity, c.symbol.name)) =
        [(BreakingChangeType.removal, "critical", o.name)] ∧
      (buildReport [o] [] f).hasBreaking = true) ∧
    (∀ (o : Symbol) (f : String), o.exported = false →
      (buildReport [o] [] f).changes = [] ∧
      (buildReport [o] [] f).hasBreaking = false ∧
      (buildReport [o] [] f).totalChanges = 0) ∧
    ((buildReport [getUserS, deleteUserS] [getUserS] "user.go").hasBreaking = true ∧
     (buildReport [getUserS, deleteUserS] [getUserS] "user.go").changes.map
        (fun c => (c.ctype, c.severity, c.symbol.name)) =
       [(BreakingChangeType.removal, "critical", "DeleteUser")]) := by
  refine ⟨?_, ?_, ?_, ?_⟩
  · intro o f ho
    simp [buildReport, detectChangesList_only_old, processRemoved, lookupKV, ho,
      removalChange]
  · intro o f ho
    simp [buildReport, detectChangesList_only_old, processRemoved, lookupKV, ho]
  · rfl
  · rfl

/-- C5 witness: the removal rule applied to the concrete exported DeleteUser
symbol, and the silent-unexported rule applied to its lowercased version. -/
theorem C5_removal_rules_witness :
    (buildReport [deleteUserS] [] "user.go").hasBreaking = true ∧
    (buildReport [{ deleteUserS with name := "deleteUser", exported := false }] []
      "user.go").changes = [] := by
  refine ⟨(C5_removal_rules.1 deleteUserS "user.go" rfl).2, ?_⟩
  exact (C5_removal_rules.2.1 { deleteUserS with name := "deleteUser", exported := false }
    "user.go" rfl).1

/-- C1 counterexample artifact: a modified symbol with medium base severity
(same parameter count, return type and export flag; changed signature) and 51
indexed references receives severity high, not critical, because the
escalation is an if/else-if chain whose first branch fires. -/
theorem C1_counterexample :
    (analyzeImpactCore (tableWithRefs "Foo" 51) [oldFoo] [newFoo] "lib.go").impacts.map
      (fun i => i.severity) = ["high"] ∧ "high" ≠ ("critical" : String) :=
  ⟨rfl, by decide⟩

/-- C1 (amended): more than 10 recorded references bump a medium severity to
high; more than 50 references force critical only when the pre-escalation
severity is not medium (the two escalations form an if/else-if chain, so a
medium result with more than 50 references becomes high, not critical); at
most 10 references, or at most 50 with a non-medium base, leave the base
severity unchanged. -/
theorem C1_reference_escalation :
    ∀ (t : SymbolTable) (sym : Symbol) (oldMap newMap : List (String × Symbol)),
      (10 < (lookupList t.references sym.name).length →
        (impactSeverityDesc sym oldMap newMap).fst = "medium" →
        (analyzeSymbolImpact t sym oldMap newMap).severity = "high") ∧
      (50 < (lookupList t.references sym.name).length →
        (impactSeverityDesc sym oldMap newMap).fst ≠ "medium" →
        (analyzeSymbolImpact t sym oldMap newMap).severity = "critical") ∧
      ((lookupList t.references sym.name).length ≤ 10 →
        (analyzeSymbolImpact t sym oldMap newMap).severity =
          (impactSeverityDesc sym oldMap newMap).fst) ∧
      ((lookupList t.references sym.name).length ≤ 50 →
        (impactSeverityDesc sym oldMap newMap).fst ≠ "medium" →
        (analyzeSymbolImpact t sym oldMap newMap).severity =
          (impactSeverityDesc sym oldMap newMap).fst) := by
  intro t sym oldMap newMap
  refine ⟨?_, ?_, ?_, ?_⟩
  · intro hlen hbase
    simp [analyzeSymbolImpact, escalateSeverity, decide_eq_true hlen, hbase]
  · intro hlen hbase
    simp [analyzeSymbolImpact, escalateSeverity, decide_eq_true hlen, hbase]
  · intro hlen
    have h1 : decide (10 < (lookupList t.references sym.name).length) = false :=
      decide_eq_false (by omega)
    have h2 : decide (50 < (lookupList t.references sym.name).length) = false :=
      decide_eq_false (by omega)
    simp [analyzeSymbolImpact, escalateSeverity, h1, h2]
  · intro hlen hbase
    have h2 : decide (50 < (lookupList t.references sym.name).length) = false :=
      decide_eq_false (by omega)
    simp [analyzeSymbolImpact, escalateSeverity, h2, hbase]

/-- C1 witness: a medium-severity modified symbol with 11 recorded references
is escalated to high. -/
theorem C1_reference_escalation_witness :
    (analyzeSymbolImpact (tableWithRefs "Foo" 11) newFoo (buildSymbolMap [oldFoo])
      (buildSymbolMap [newFoo])).severity = "high" :=
  (C1_reference_escalation (tableWithRefs "Foo" 11) newFoo (buildSymbolMap [oldFoo])
    (buildSymbolMap [newFoo])).1 (by decide) (by rfl)

/-- C6 counterexample artifact: an added symbol whose name already has 51
recorded references in the index receives severity critical, not low, via
the more-than-50 escalation. -/
theorem C6_counterexample :
    (analyzeImpactCore (tableWithRefs "Foo" 51) [] [newFoo] "lib.go").impacts.map
      (fun i => i.severity) = ["critical"] ∧ "critical" ≠ ("low" : String) :=
  ⟨rfl, by decide⟩

/-- C6 (amended): a symbol whose key is present only in the new set produces
no change in `DetectBreakingChanges` (so adding a new symbol to an otherwise
unchanged symbol set never sets `hasBreaking`), and the impact severity
assigned to a newly added symbol is low unless the index records more than
50 references to its name, in which case the escalation forces critical. -/
theorem C6_additions :
    (∀ (oldSymbols : List Symbol) (newSym : Symbol) (f : String),
      lookupKV (buildSymbolMap oldSymbols) (symbolKey newSym) = none →
      (buildReport oldSymbols (oldSymbols ++ [newSym]) f).changes = [] ∧
      (buildReport oldSymbols (oldSymbols ++ [newSym]) f).hasBreaking = false) ∧
    (∀ (t : SymbolTable) (sym : Symbol) (oldMap newMap : List (String × Symbol)),
      lookupKV oldMap (symbolKey sym) = none →
      ((lookupList t.references sym.name).length ≤ 50 →
        (analyzeSymbolImpact t sym oldMap newMap).severity = "low") ∧
      (50 < (lookupList t.references sym.name).length →
        (analyzeSymbolImpact t sym oldMap newMap).severity = "critical")) := by
  constructor
  · intro oldSymbols newSym f h
    simp [buildReport, detectChangesList_add oldSymbols newSym f h]
  · intro t sym oldMap newMap h
    constructor
    · intro hlen
      have h2 : decide (50 < (lookupList t.references sym.name).length) = false :=
        decide_eq_false (by omega)
      simp [analyzeSymbolImpact, escalateSeverity, impactSeverityDesc, h, h2]
    · intro hlen
      simp [analyzeSymbolImpact, escalateSeverity, impactSeverityDesc, h,
        decide_eq_true hlen]

/-- C6 witness: adding DeleteUser beside an unchanged GetUser is not
breaking, and an added symbol with no recorded references has low severity. -/
theorem C6_additions_witness :
    (buildReport [getUserS] ([getUserS] ++ [deleteUserS]) "user.go").hasBreaking = false ∧
    (analyzeSymbolImpact (tableWithRefs "Foo" 0) newFoo []
      (buildSymbolMap [newFoo])).severity = "low" := by
  refine ⟨(C6_additions.1 [getUserS] deleteUserS "user.go" (by rfl)).2, ?_⟩
  exact (C6_additions.2 (tableWithRefs "Foo" 0) newFoo [] (buildSymbolMap [newFoo])
    (by rfl)).1 (by decide)

/-- C2: an exported-to-unexported flip under the same key yields exactly one
critical `visibility_change` and a breaking report; an exported symbol
removed under its key but matched case-insensitively by a same-kind,
differently named new symbol yields a critical `visibility_change` instead
of a removal. -/
theorem C2_visibility_critical :
    (∀ (o n : Symbol) (f : String),
      o.name = n.name → o.kind = n.kind → o.parent = n.parent →
      o.exported = true → n.exported = false →
      (buildReport [o] [n] f).changes.map (fun c => (c.ctype, c.severity)) =
        [(BreakingChangeType.visibilityChange, "critical")] ∧
      (buildReport [o] [n] f).hasBreaking = true) ∧
    (∀ (o n : Symbol) (f : String),
      eqFold o.name n.name = true → o.kind = n.kind → o.name ≠ n.name →
      symbolKey o ≠ symbolKey n → o.exported = true →
      (buildReport [o] [n] f).changes.map (fun c => (c.ctype, c.severity)) =
        [(BreakingChangeType.visibilityChange, "critical")] ∧
      (buildReport [o] [n] f).hasBreaking = true) := by
  constructor
  · intro o n f hname hkind hparent ho hn
    have hk : symbolKey o = symbolKey n := by
      rw [symbolKey, symbolKey, hname, hkind, hparent]
    constructor <;>
      simp [buildReport, detectChangesList_pair o n f hk, processBothSides, ho, hn,
        downgradeVisibilityChange]
  · intro o n f heq hkind hne hkey ho
    have h1 : (o.name == n.name) = false := by simp [hne]
    have hbne : (o.name != n.name) = true := by simp [bne, h1]
    have hfind : List.find? (fun newSym =>
        eqFold o.name newSym.name && decide (o.kind = newSym.kind) &&
        o.name != newSym.name) [n] = some n := by
      simp [List.find?, heq, decide_eq_true hkind, hbne]
    have hchanges : detectChangesList [o] [n] f = [renamedVisibilityChange f o n] := by
      simp [detectChangesList, buildSymbolMap, setKV, processRemoved, lookupKV,
        hkey, Ne.symm hkey, ho, hfind]
    constructor <;> simp [buildReport, hchanges, renamedVisibilityChange]

/-- C2 witness: GetUser flipped to unexported under the same name, and
GetUser renamed to the unexported getUser. -/
theorem C2_visibility_critical_witness :
    (buildReport [getUserS] [{ getUserS with exported := false }] "user.go").hasBreaking
      = true ∧
    (buildReport [getUserS] [{ getUserS with name := "getUser", exported := false }]
      "user.go").hasBreaking = true := by
  refine ⟨(C2_visibility_critical.1 getUserS { getUserS with exported := false }
    "user.go" rfl rfl rfl rfl rfl).2, ?_⟩
  exact (C2_visibility_critical.2 getUserS
    { getUserS with name := "getUser", exported := false } "user.go"
    (by decide) rfl (by decide) (by decide) rfl).2

lemma detectParameterChanges_eq_positional (o n : Symbol)
    (hlen : o.parameters.length = n.parameters.length) :
    detectParameterChanges o n =
      ((List.range o.parameters.length).filter (fun i =>
        o.parameters.getD i "" != n.parameters.getD i "")).map
        (fun i => positionalParamChange o n i) := by
  have h1 : ¬ o.parameters.length < n.parameters.length := by omega
  have h2 : ¬ n.parameters.length < o.parameters.length := by omega
  have hmin : min o.parameters.length n.parameters.length = o.parameters.length := by
    omega
  simp only [detectParameterChanges, if_neg h1, if_neg h2, hmin, List.nil_append]
  exact filterMap_if_eq_map_filter _ _ _

lemma processBothSides_shape (f : String) (o n : Symbol) :
    (∀ c ∈ processBothSides f [] o n, c.ctype ≠ BreakingChangeType.signatureChange) ∨
    processBothSides f [] o n = [signatureChangeOf f o n] := by
  rw [processBothSides]
  by_cases h1 : (!o.exported && !n.exported) = true
  · simp only [h1, if_true]
    left; intro c hc; simp at hc
  rw [Bool.not_eq_true] at h1
  by_cases h2 : (o.exported && !n.exported) = true
  · simp only [h1, Bool.false_eq_true, if_false, h2, if_true]
    left; intro c hc
    simp only [List.nil_append, List.mem_singleton] at hc
    subst hc
    simp [downgradeVisibilityChange]
  rw [Bool.not_eq_true] at h2
  simp only [h1, h2, Bool.false_eq_true, if_false, List.nil_append]
  by_cases h3 : (o.returnType != n.returnType && o.returnType != "" &&
      n.returnType != "") = true
  · -- a return-type change is recorded, so the signature change is suppressed
    left
    simp only [h3, if_true]
    intro c hc
    have hany : ((detectParameterChanges o n ++ [returnTypeChangeOf f o n]).any
        (fun c => c.symbol.name == n.name &&
          decide (c.ctype = BreakingChangeType.returnTypeChange))) = true :=
      List.any_eq_true.mpr ⟨returnTypeChangeOf f o n, by simp, by simp [returnTypeChangeOf]⟩
    simp only [hany, Bool.not_true, Bool.and_false, Bool.false_eq_true, if_false,
      ite_self] at hc
    rcases List.mem_append.mp hc with hcp | hcl
    · obtain ⟨-, hty⟩ := mem_detectParameterChanges hcp
      rcases hty with h | h <;> simp [h]
    · rcases List.mem_singleton.mp hcl with rfl
      simp [returnTypeChangeOf]
  rw [Bool.not_eq_true] at h3
  simp only [h3, Bool.false_eq_true, if_false]
  cases hpc : detectParameterChanges o n with
  | nil =>
    by_cases h4 : (o.signature != n.signature && o.signature != "" &&
        n.signature != "") = true
    · right
      simp [hpc, h4]
    · rw [Bool.not_eq_true] at h4
      left
      simp only [hpc, h4, Bool.false_eq_true, if_false]
      intro c hc
      simp at hc
  | cons chead ctail =>
    have hmem : chead ∈ detectParameterChanges o n := by
      rw [hpc]; exact List.mem_cons_self _ _
    obtain ⟨hsym, hty⟩ := mem_detectParameterChanges hmem
    have hPP : ((chead :: ctail).any (fun c =>
        c.symbol.name == n.name && (decide (c.ctype = BreakingChangeType.parameterChange) ||
          decide (c.ctype = BreakingChangeType.requiredParameter)))) = true := by
      refine List.any_eq_true.mpr ⟨chead, by simp, ?_⟩
      rcases hty with h | h <;> simp [hsym, h]
    left
    simp only [hpc, hPP, Bool.not_true, Bool.false_and, Bool.false_eq_true, if_false,
      ite_self]
    intro c hc
    have hcm : c ∈ detectParameterChanges o n := by rw [hpc]; exact hc
    obtain ⟨-, hty2⟩ := mem_detectParameterChanges hcm
    rcases hty2 with h | h <;> simp [h]

/-- C3: a generic `signature_change` is recorded for a symbol only when no
`parameter_change`, `required_parameter` or `return_type_change` was recorded
for it; in particular, a symbol whose parameter list changed at exactly one
position (same count) and whose signature string also changed gets exactly
one `parameter_change` and no `signature_change` and no
`required_parameter`. -/
theorem C3_no_double_report :
    (∀ (o n : Symbol) (f : String), symbolKey o = symbolKey n →
      (∃ c ∈ (buildReport [o] [n] f).changes,
        c.ctype = BreakingChangeType.signatureChange) →
      ∀ c ∈ (buildReport [o] [n] f).changes,
        c.ctype ≠ BreakingChangeType.parameterChange ∧
        c.ctype ≠ BreakingChangeType.requiredParameter ∧
        c.ctype ≠ BreakingChangeType.returnTypeChange) ∧
    (∀ (o n : Symbol) (f : String),
      symbolKey o = symbolKey n → o.exported = true → n.exported = true →
      o.parameters.length = n.parameters.length →
      ((List.range o.parameters.length).filter (fun i =>
        o.parameters.getD i "" != n.parameters.getD i "")).length = 1 →
      o.returnType = n.returnType →
      o.signature ≠ n.signature → o.signature ≠ "" → n.signature ≠ "" →
      (buildReport [o] [n] f).changes.countP
        (fun c => decide (c.ctype = BreakingChangeType.parameterChange)) = 1 ∧
      (buildReport [o] [n] f).changes.countP
        (fun c => decide (c.ctype = BreakingChangeType.requiredParameter)) = 0 ∧
      (buildReport [o] [n] f).changes.countP
        (fun c => decide (c.ctype = BreakingChangeType.signatureChange)) = 0) := by
  constructor
  · intro o n f hk hex c hc
    have hcs : (buildReport [o] [n] f).changes = processBothSides f [] o n := by
      simp [buildReport, detectChangesList_pair o n f hk]
    rw [hcs] at hex hc
    rcases processBothSides_shape f o n with hsh | hsh
    · obtain ⟨c', hc', hty⟩ := hex
      exact absurd hty (hsh c' hc')
    · rw [hsh] at hc
      rcases List.mem_singleton.mp hc with rfl
      refine ⟨?_, ?_, ?_⟩ <;> simp [signatureChangeOf]
  · intro o n f hk ho hn hlen hdiff hret hsig hso hsn
    have hcs : (buildReport [o] [n] f).changes = processBothSides f [] o n := by
      simp [buildReport, detectChangesList_pair o n f hk]
    obtain ⟨i0, hi0⟩ := List.length_eq_one.mp hdiff
    have hpc : detectParameterChanges o n = [positionalParamChange o n i0] := by
      rw [detectParameterChanges_eq_positional o n hlen, hi0]
      rfl
    have h1 : (!o.exported && !n.exported) = false := by simp [ho]
    have h2 : (o.exported && !n.exported) = false := by simp [hn]
    have h3 : (o.returnType != n.returnType) = false := by simp [bne, hret]
    have h4 : (o.signature != n.signature) = true := by simp [bne, hsig]
    have h5 : (o.signature != "") = true := by simp [bne, hso]
    have h6 : (n.signature != "") = true := by simp [bne, hsn]
    have hres : processBothSides f [] o n = [positionalParamChange o n i0] := by
      simp [processBothSides, h1, h2, h3, h4, h5, h6, hpc, positionalParamChange]
    rw [hcs, hres]
    refine ⟨?_, ?_, ?_⟩ <;> simp [positionalParamChange]

/-- C3 witness: the suppression rule at a symbol with only a signature-string
change, and the particular case at a symbol with one changed parameter
position plus a changed signature. -/
theorem C3_no_double_report_witness :
    ((signatureChangeOf "lib.go" oldFoo fooSigOnly).ctype ≠
        BreakingChangeType.parameterChange ∧
      (signatureChangeOf "lib.go" oldFoo fooSigOnly).ctype ≠
        BreakingChangeType.requiredParameter ∧
      (signatureChangeOf "lib.go" oldFoo fooSigOnly).ctype ≠
        BreakingChangeType.returnTypeChange) ∧
    (buildReport [oldFoo] [newFoo] "lib.go").changes.countP
      (fun c => decide (c.ctype = BreakingChangeType.parameterChange)) = 1 ∧
    (buildReport [oldFoo] [newFoo] "lib.go").changes.countP
      (fun c => decide (c.ctype = BreakingChangeType.signatureChange)) = 0 := by
  refine ⟨?_, ?_, ?_⟩
  · exact C3_no_double_report.1 oldFoo fooSigOnly "lib.go" rfl (by decide)
      (signatureChangeOf "lib.go" oldFoo fooSigOnly) (by decide)
  · exact (C3_no_double_report.2 oldFoo newFoo "lib.go" rfl rfl rfl rfl (by decide) rfl
      (by decide) (by decide) (by decide)).1
  · exact (C3_no_double_report.2 oldFoo newFoo "lib.go" rfl rfl rfl rfl (by decide) rfl
      (by decide) (by decide) (by decide)).2.2

/-- C4: `detectParameterChanges` emits exactly one `required_parameter` with
severity error (whose old and new values report the two counts) when the new
side has strictly more parameters, exactly one warning `parameter_change`
when it has strictly fewer, and one error `parameter_change` per differing
position of the overlapping positional range. -/
theorem C4_parameter_rules :
    ∀ (o n : Symbol),
      ((detectParameterChanges o n).countP
          (fun c => decide (c.ctype = BreakingChangeType.requiredParameter)) =
        if o.parameters.length < n.parameters.length then 1 else 0) ∧
      ((detectParameterChanges o n).countP (fun c =>
          decide (c.ctype = BreakingChangeType.parameterChange) &&
          (c.severity == "warning")) =
        if n.parameters.length < o.parameters.length then 1 else 0) ∧
      ((detectParameterChanges o n).countP (fun c =>
          decide (c.ctype = BreakingChangeType.parameterChange) &&
          (c.severity == "error")) =
        ((List.range (min o.parameters.length n.parameters.length)).filter (fun i =>
          o.parameters.getD i "" != n.parameters.getD i "")).length) ∧
      (∀ c ∈ detectParameterChanges o n,
        c.ctype = BreakingChangeType.requiredParameter →
        c.severity = "error" ∧
        c.oldValue = toString o.parameters.length ++ " parameters" ∧
        c.newValue = toString n.parameters.length ++ " parameters") := by
  intro o n
  have hsplit : detectParameterChanges o n =
      (if o.parameters.length < n.parameters.length
        then [requiredParamChange o n] else []) ++
      ((if n.parameters.length < o.parameters.length
        then [fewerParamsChange o n] else []) ++
      ((List.range (min o.parameters.length n.parameters.length)).filter (fun i =>
        o.parameters.getD i "" != n.parameters.getD i "")).map
        (fun i => positionalParamChange o n i)) := by
    simp only [detectParameterChanges, List.append_assoc]
    rw [filterMap_if_eq_map_filter]
  rw [hsplit]
  refine ⟨?_, ?_, ?_, ?_⟩
  · by_cases hmore : o.parameters.length < n.parameters.length <;>
      by_cases hfewer : n.parameters.length < o.parameters.length <;>
      simp [hmore, hfewer, List.countP_append, List.countP_map,
        requiredParamChange, fewerParamsChange, positionalParamChange,
        Function.comp_def, List.countP_eq_zero]
  · by_cases hmore : o.parameters.length < n.parameters.length <;>
      by_cases hfewer : n.parameters.length < o.parameters.length <;>
      simp [hmore, hfewer, List.countP_append, List.countP_map,
        requiredParamChange, fewerParamsChange, positionalParamChange,
        Function.comp_def, List.countP_eq_zero]
  · by_cases hmore : o.parameters.length < n.parameters.length <;>
      by_cases hfewer : n.parameters.length < o.parameters.length <;>
      simp [hmore, hfewer, List.countP_append, List.countP_map,
        requiredParamChange, fewerParamsChange, positionalParamChange,
        Function.comp_def]
  · intro c hc hreq
    rcases List.mem_append.mp hc with hcm | hc2
    · by_cases hmore : o.parameters.length < n.parameters.length
      · rw [if_pos hmore] at hcm
        rcases List.mem_singleton.mp hcm with rfl
        exact ⟨rfl, rfl, rfl⟩
      · rw [if_neg hmore] at hcm
        simp at hcm
    · rcases List.mem_append.mp hc2 with hcm | hcm
      · by_cases hfewer : n.parameters.length < o.parameters.length
        · rw [if_pos hfewer] at hcm
          rcases List.mem_singleton.mp hcm with rfl
          simp [fewerParamsChange] at hreq
        · rw [if_neg hfewer] at hcm
          simp at hcm
      · rcases List.mem_map.mp hcm with ⟨i, -, hi⟩
        rw [← hi] at hreq
        simp [positionalParamChange] at hreq

/-- C4 witness: the parameter rules evaluated at adding one required
parameter to GetUser (count delta reported by the required-parameter change)
and at removing it again. -/
theorem C4_parameter_rules_witness :
    (detectParameterChanges getUserS getUserTwoParams).countP
      (fun c => decide (c.ctype = BreakingChangeType.requiredParameter)) = 1 ∧
    (detectParameterChanges getUserTwoParams getUserS).countP (fun c =>
      decide (c.ctype = BreakingChangeType.parameterChange) &&
      (c.severity == "warning")) = 1 ∧
    (requiredParamChange getUserS getUserTwoParams).severity = "error" ∧
    (requiredParamChange getUserS getUserTwoParams).oldValue = "1 parameters" ∧
    (requiredParamChange getUserS getUserTwoParams).newValue = "2 parameters" := by
  refine ⟨?_, ?_, ?_⟩
  · have h := (C4_parameter_rules getUserS getUserTwoParams).1
    simpa using h
  · have h := (C4_parameter_rules getUserTwoParams getUserS).2.1
    simpa using h
  · have h := (C4_parameter_rules getUserS getUserTwoParams).2.2.2
      (requiredParamChange getUserS getUserTwoParams) (by decide) rfl
    simpa using h

end Manque
